import Mathlib

/-!
Verification of the Uniswap-v3 pricing and position-aggregation code in
`uniV3Pricing.py`: the tick-to-sqrt-price conversion, the liquidity-to-amount
conversion, and the per-account position aggregation routine.

Python integers are modelled as `Nat` (all quantities in the code are
non-negative; Python `//` on non-negatives is `Nat.div`, `>>`/`<<` are
`Nat.shiftRight`/`Nat.shiftLeft`, `&` is `Nat.land`).  A Python function that
can raise is modelled as returning `Option`, with `none` standing for a raised
exception.  The external web3 collaborator is modelled as a record of the two
read calls the aggregation routine makes.
-/

namespace UniV3

/-- Mirrors one conditional multiply-shift step of `get_sqrt_ratio_at_tick`
(src/uniV3Pricing.py lines 47-84): if the masked bit of `absTick` is set,
multiply the running ratio by the magic constant and renormalize by a
128-bit right shift; otherwise leave the ratio unchanged. -/
def mstep (absTick mask magic r : Nat) : Nat :=
  if absTick &&& mask ≠ 0 then (r * magic) >>> 128 else r

def MAX_TICK : Nat := 887272

/-- The pre-shift 256-bit intermediate ratio of `get_sqrt_ratio_at_tick`
(src/uniV3Pricing.py lines 42-84) as a function of `abs(tick)`: the seed
constant chosen by bit 0, then the nineteen conditional multiply-shift steps. -/
def ratioAbs (absTick : Nat) : Nat :=
  let r : Nat :=
    if absTick &&& 0x1 ≠ 0 then 0xFFFCB933BD6FAD37AA2D162D1A594001
    else 0x100000000000000000000000000000000
  let r := mstep absTick 0x2 0xFFF97272373D413259A46990580E213A r
  let r := mstep absTick 0x4 0xFFF2E50F5F656932EF12357CF3C7FDCC r
  let r := mstep absTick 0x8 0xFFE5CACA7E10E4E61C3624EAA0941CD0 r
  let r := mstep absTick 0x10 0xFFCB9843D60F6159C9DB58835C926644 r
  let r := mstep absTick 0x20 0xFF973B41FA98C081472E6896DFB254C0 r
  let r := mstep absTick 0x40 0xFF2EA16466C96A3843EC78B326B52861 r
  let r := mstep absTick 0x80 0xFE5DEE046A99A2A811C461F1969C3053 r
  let r := mstep absTick 0x100 0xFCBE86C7900A88AEDCFFC83B479AA3A4 r
  let r := mstep absTick 0x200 0xF987A7253AC413176F2B074CF7815E54 r
  let r := mstep absTick 0x400 0xF3392B0822B70005940C7A398E4B70F3 r
  let r := mstep absTick 0x800 0xE7159475A2C29B7443B29C7FA6E889D9 r
  let r := mstep absTick 0x1000 0xD097F3BDFD2022B8845AD8F792AA5825 r
  let r := mstep absTick 0x2000 0xA9F746462D870FDF8A65DC1F90E061E5 r
  let r := mstep absTick 0x4000 0x70D869A156D2A1B890BB3DF62BAF32F7 r
  let r := mstep absTick 0x8000 0x31BE135F97D08FD981231505542FCFA6 r
  let r := mstep absTick 0x10000 0x9AA508B5B7A84E1C677DE54F3E99BC9 r
  let r := mstep absTick 0x20000 0x5D6AF8DEDB81196699C329225EE604 r
  let r := mstep absTick 0x40000 0x2216E584F5FA1EA926041BEDFE98 r
  mstep absTick 0x80000 0x48A170391F7DC42444E8FA2 r

/-- Shallow embedding of `get_sqrt_ratio_at_tick` (src/uniV3Pricing.py lines 35-90).
`none` models a raised Python exception: the ValueError on an out-of-range
tick, or the ZeroDivisionError that `(1 << 256) // ratio` would raise if the
running ratio were zero (we prove below that this never happens in range). -/
def get_sqrt_ratio_at_tick (tick : Int) : Option Nat :=
  let absTick : Nat := tick.natAbs
  if absTick > MAX_TICK then none
  else
    let r := ratioAbs absTick
    match (if tick > 0 then (if r = 0 then none else some ((1 <<< 256) / r)) else some r : Option Nat) with
    | none => none
    | some r => some ((r >>> 32) + (if r % (1 <<< 32) ≠ 0 then 1 else 0))

/-- `mul_div` (src/uniV3Pricing.py lines 10-12): full-precision multiply then
truncating division.  Callers below guard the zero-denominator case, which in
Python raises ZeroDivisionError; with a non-zero denominator `Nat.div` agrees
with Python `//`. -/
def mul_div (a b denominator : Nat) : Nat :=
  a * b / denominator

/-- `get_amount0_for_liquidity` (src/uniV3Pricing.py lines 93-101): normalize
the two sqrt prices, then divide by the upper and by the lower sqrt price.
`none` models the ZeroDivisionError Python raises exactly when the smaller
(normalized) sqrt price is zero. -/
def get_amount0_for_liquidity (sqrtRatioAX96 sqrtRatioBX96 liquidity : Nat) : Option Nat :=
  let lowX96 := if sqrtRatioAX96 > sqrtRatioBX96 then sqrtRatioBX96 else sqrtRatioAX96
  let highX96 := if sqrtRatioAX96 > sqrtRatioBX96 then sqrtRatioAX96 else sqrtRatioBX96
  if lowX96 = 0 then none
  else some (mul_div (liquidity <<< 96) (highX96 - lowX96) highX96 / lowX96)

/-- `get_amount1_for_liquidity` (src/uniV3Pricing.py lines 104-109): normalize
the two sqrt prices, then `mul_div(liquidity, high - low, 2**96)`.  Total: the
denominator is the constant `2^96`. -/
def get_amount1_for_liquidity (sqrtRatioAX96 sqrtRatioBX96 liquidity : Nat) : Nat :=
  let lowX96 := if sqrtRatioAX96 > sqrtRatioBX96 then sqrtRatioBX96 else sqrtRatioAX96
  let highX96 := if sqrtRatioAX96 > sqrtRatioBX96 then sqrtRatioAX96 else sqrtRatioBX96
  mul_div liquidity (highX96 - lowX96) (2 ^ 96)

/-- `get_amounts_from_ticks` (src/uniV3Pricing.py lines 112-129): convert the
three ticks to sqrt prices, normalize the range bounds, and decompose into the
three regimes.  `none` models a Python exception propagating out of any of the
inner calls. -/
def get_amounts_from_ticks (tickCurrent tickLower tickUpper : Int) (liquidity : Nat) :
    Option (Nat × Nat) :=
  match get_sqrt_ratio_at_tick tickCurrent, get_sqrt_ratio_at_tick tickLower,
      get_sqrt_ratio_at_tick tickUpper with
  | some sqrtRatioX96, some sqrtRatioA, some sqrtRatioB =>
    let sqrtRatioAX96 := if sqrtRatioA > sqrtRatioB then sqrtRatioB else sqrtRatioA
    let sqrtRatioBX96 := if sqrtRatioA > sqrtRatioB then sqrtRatioA else sqrtRatioB
    if sqrtRatioX96 ≤ sqrtRatioAX96 then
      (get_amount0_for_liquidity sqrtRatioAX96 sqrtRatioBX96 liquidity).map (fun a0 => (a0, 0))
    else if sqrtRatioX96 < sqrtRatioBX96 then
      (get_amount0_for_liquidity sqrtRatioX96 sqrtRatioBX96 liquidity).map
        (fun a0 => (a0, get_amount1_for_liquidity sqrtRatioAX96 sqrtRatioX96 liquidity))
    else
      some (0, get_amount1_for_liquidity sqrtRatioAX96 sqrtRatioBX96 liquidity)
  | _, _, _ => none

/-! ## Position aggregation (src/uniV3Pricing.py lines 133-344) -/

/-- The twelve decoded fields of the `positions(tokenId)` read
(src/uniV3Pricing.py lines 173-186). -/
structure PositionDetails where
  nonce : Nat
  operator : String
  token0 : String
  token1 : String
  fee : Nat
  tickLower : Int
  tickUpper : Int
  liquidity : Nat
  feeGrowthInside0LastX128 : Nat
  feeGrowthInside1LastX128 : Nat
  tokensOwed0 : Nat
  tokensOwed1 : Nat

/-- The seven decoded fields of the `slot0()` read
(src/uniV3Pricing.py lines 225-233). -/
structure Slot0 where
  sqrtPriceX96 : Nat
  tick : Int
  observationIndex : Nat
  observationCardinality : Nat
  observationCardinalityNext : Nat
  feeProtocol : Nat
  unlocked : Bool

/-- The external web3 collaborator, restricted to the two read calls the
aggregation routine performs.  `positions` models
`get_nft_positions_details` (src/uniV3Pricing.py lines 133-188) and `slot0`
models `get_uniswap_slot0` (lines 190-235); in both, `none` models the
`ContractLogicError` path that makes the Python helper return `None`. -/
structure ChainReader where
  positions : String → Nat → Option PositionDetails
  slot0 : String → Option Slot0

/-- One row of the static pool table (src/uniV3Pricing.py lines 278-295). -/
structure PoolMapping where
  name : String
  pool : String
  token0 : String
  token1 : String
  decimal0 : Nat
  decimal1 : Nat

def POOL_NFT_MAPPINGS : List PoolMapping :=
  [ { name := "wETH-USDC"
    , pool := "0xd0b53D9277642d899DF5C87A3966A349A798F224"
    , token0 := "0x4200000000000000000000000000000000000006"
    , token1 := "0x833589fCD6eDb6E08f4c7C32D4f71b54bdA02913"
    , decimal0 := 18
    , decimal1 := 6 }
  , { name := "wETH-USDbC"
    , pool := "0x4C36388bE6F416A29C8d8Eee81C771cE6bE14B18"
    , token0 := "0x4200000000000000000000000000000000000006"
    , token1 := "0xd9aAEc86B65D86f6A7B5B1b0c42FFA531710b6CA"
    , decimal0 := 18
    , decimal1 := 6 } ]

/-- `add_or_update_dict` (src/uniV3Pricing.py lines 7-8) on the
insertion-ordered dictionary: add `value` to the entry at `key`, inserting a
new entry at the end when the key is absent (the `defaultdict(int)` default). -/
def add_or_update_dict : List (String × Nat) → String → Nat → List (String × Nat)
  | [], key, value => [(key, value)]
  | (k, v) :: rest, key, value =>
      if k == key then (k, v + value) :: rest
      else (k, v) :: add_or_update_dict rest key value

/-- Python `str.lower()` on the ASCII contract-address strings, as a
kernel-reducible map over the character data. -/
def str_lower (s : String) : String := 
  String.mk (s.data.map Char.toLower)

/-- The `pool_lookup` dictionary (src/uniV3Pricing.py lines 302-308): each pool
is keyed by its lowercased token pair in both orders.  Later insertions win in
a Python dict, hence the reversed association list. -/
def pool_lookup : List ((String × String) × PoolMapping) :=
  POOL_NFT_MAPPINGS.foldl
    (fun acc pool =>
      ((str_lower pool.token1, str_lower pool.token0), pool)
        :: ((str_lower pool.token0, str_lower pool.token1), pool) :: acc)
    []

/-- Body of the non-zero-identifier loop of `get_arcadia_account_nft_position`
(src/uniV3Pricing.py lines 313-342) for one entry `(address, id, amount)`:
look up the position, degrade to a zero marker when the lookup or the pool
mapping fails, skip the entry when the slot0 read fails, otherwise add the two
computed amounts.  The outer `none` models a Python exception (DomainError)
escaping from `get_amounts_from_ticks`. -/
def processNonZero (w3 : ChainReader) (result : List (String × Nat))
    (e : String × Nat × Nat) : Option (List (String × Nat)) :=
  let nft_contract := e.1
  match w3.positions nft_contract e.2.1 with
  | none => some (add_or_update_dict result nft_contract 0)
  | some nft_positions_details =>
    let token0 := str_lower nft_positions_details.token0
    let token1 := str_lower nft_positions_details.token1
    match pool_lookup.find? (fun p => p.1 == (token0, token1)) with
    | none => some (add_or_update_dict result nft_contract 0)
    | some matching_pool =>
      match w3.slot0 matching_pool.2.pool with
      | none => some result
      | some slot0 =>
        (get_amounts_from_ticks slot0.tick nft_positions_details.tickLower
            nft_positions_details.tickUpper nft_positions_details.liquidity).map
          (fun amounts =>
            add_or_update_dict
              (add_or_update_dict result nft_positions_details.token0 amounts.1)
              nft_positions_details.token1 amounts.2)

/-- Fold of `processNonZero` over the non-zero-identifier entries, propagating
an escaped exception. -/
def nonZeroFold (w3 : ChainReader) (acc : Option (List (String × Nat)))
    (entries : List (String × Nat × Nat)) : Option (List (String × Nat)) :=
  entries.foldl (fun acc e => acc.bind (fun r => processNonZero w3 r e)) acc

/-- `get_arcadia_account_nft_position` (src/uniV3Pricing.py lines 267-344).
`asset_data` is the triple of parallel sequences (addresses, ids, amounts);
per the index-based Python loops they are walked in parallel (the spec assumes
equal lengths), zero-identifier entries first, then non-zero ones.  `none`
models a DomainError escaping the aggregation. -/
def get_arcadia_account_nft_position (asset_data : List String × List Nat × List Nat)
    (w3 : ChainReader) : Option (List (String × Nat)) :=
  let entries := asset_data.1.zip (asset_data.2.1.zip asset_data.2.2)
  let zero_entries := entries.filter (fun e => e.2.1 == 0)
  let non_zero_entries := entries.filter (fun e => e.2.1 != 0)
  let result := zero_entries.foldl (fun result e => add_or_update_dict result e.1 e.2.2) []
  nonZeroFold w3 (some result) non_zero_entries

/-- Python `dict.get`: the value stored at `k`, if the key is present. -/
def dict_get (d : List (String × Nat)) (k : String) : Option Nat :=
  (d.find? (fun p => p.1 == k)).map (fun p => p.2)

end UniV3

open UniV3

-- sanity checks of the embedding against known values of the reference
-- implementation (Uniswap v3 TickMath)
theorem sanity_sqrt_ratio_zero : get_sqrt_ratio_at_tick 0 = some (2 ^ 96) := by decide
theorem sanity_sqrt_ratio_min : get_sqrt_ratio_at_tick (-887272) = some 4295128739 := by decide
theorem sanity_sqrt_ratio_max :
    get_sqrt_ratio_at_tick 887272 = some 1461446703485210103287273052203988822378723970342 := by
  decide

/-! ## Dictionary lemmas -/

theorem dict_get_cons_ne (pk : String) (pv : Nat) (tail : List (String × Nat)) (a : String)
    (h : pk ≠ a) : dict_get ((pk, pv) :: tail) a = dict_get tail a := by
  simp [dict_get, List.find?, beq_eq_false_iff_ne.mpr h]

theorem dict_get_cons_self (pk : String) (pv : Nat) (tail : List (String × Nat)) :
    dict_get ((pk, pv) :: tail) pk = some pv := by
  simp [dict_get, List.find?]

theorem dict_get_add_or_update (d : List (String × Nat)) (k : String) (v : Nat) (a : String) :
    dict_get (add_or_update_dict d k v) a =
      if a = k then some ((dict_get d a).getD 0 + v) else dict_get d a := by
  induction d with
  | nil =>
    by_cases h : a = k
    · subst h
      simp [add_or_update_dict, dict_get_cons_self, dict_get]
    · rw [show add_or_update_dict [] k v = [(k, v)] from rfl,
        dict_get_cons_ne k v [] a (fun hh => h hh.symm), if_neg h]
  | cons p rest ih =>
    obtain ⟨pk, pv⟩ := p
    by_cases hpk : pk = k
    · subst hpk
      rw [show add_or_update_dict ((pk, pv) :: rest) pk v = (pk, pv + v) :: rest from by
        simp [add_or_update_dict]]
      by_cases hak : a = pk
      · subst hak
        simp [dict_get_cons_self]
      · rw [dict_get_cons_ne pk (pv + v) rest a (fun hh => hak hh.symm),
          dict_get_cons_ne pk pv rest a (fun hh => hak hh.symm), if_neg hak]
    · rw [show add_or_update_dict ((pk, pv) :: rest) k v
          = (pk, pv) :: add_or_update_dict rest k v from by
        simp [add_or_update_dict, beq_eq_false_iff_ne.mpr hpk]]
      by_cases hak : a = pk
      · subst hak
        rw [dict_get_cons_self, dict_get_cons_self, if_neg hpk]
      · rw [dict_get_cons_ne pk pv _ a (fun hh => hak hh.symm),
          dict_get_cons_ne pk pv rest a (fun hh => hak hh.symm)]
        exact ih

/-- Specification-side helper: the total amount the zero-identifier entries
contribute to address `a`. -/
def sumAmounts : List (String × Nat × Nat) → String → Nat
  | [], _ => 0
  | e :: rest, a => (if e.1 = a then e.2.2 else 0) + sumAmounts rest a

theorem dict_get_fold_zero (entries : List (String × Nat × Nat)) :
    ∀ (d : List (String × Nat)) (a : String),
      dict_get (entries.foldl (fun r e => add_or_update_dict r e.1 e.2.2) d) a =
        if (dict_get d a).isSome = true ∨ entries.any (fun e => e.1 == a) = true then
          some ((dict_get d a).getD 0 + sumAmounts entries a)
        else none := by
  induction entries with
  | nil =>
    intro d a
    cases h : dict_get d a <;> simp [h, sumAmounts]
  | cons e rest ih =>
    intro d a
    rw [List.foldl_cons, ih, dict_get_add_or_update]
    by_cases hae : a = e.1
    · subst hae
      have h2 : sumAmounts (e :: rest) e.1 = e.2.2 + sumAmounts rest e.1 := by
        rw [sumAmounts, if_pos rfl]
      simp [h2, Nat.add_assoc]
    · have h1 : (e.1 == a) = false := beq_eq_false_iff_ne.mpr (fun hh => hae hh.symm)
      have h2 : sumAmounts (e :: rest) a = sumAmounts rest a := by
        rw [sumAmounts, if_neg (show ¬ e.1 = a from fun hh => hae hh.symm), Nat.zero_add]
      have hcond : ((e :: rest).any fun x => x.1 == a) = (rest.any fun x => x.1 == a) := by
        rw [List.any_cons]
        cases hr : rest.any fun x => x.1 == a <;> simp [h1]
      rw [if_neg hae, h2, hcond]

/-- When every identifier is zero there are no non-zero entries to process. -/
theorem filter_nonzero_eq_nil (asset_data : List String × List Nat × List Nat)
    (h0 : ∀ id ∈ asset_data.2.1, id = 0) :
    (asset_data.1.zip (asset_data.2.1.zip asset_data.2.2)).filter (fun e => e.2.1 != 0) = [] := by
  rw [List.filter_eq_nil_iff]
  intro e he
  have h1 := List.of_mem_zip he
  have h2 := List.of_mem_zip h1.2
  have := h0 e.2.1 h2.1
  simp [this]

/-- When every identifier is zero the zero-entry filter keeps everything. -/
theorem filter_zero_eq_self (asset_data : List String × List Nat × List Nat)
    (h0 : ∀ id ∈ asset_data.2.1, id = 0) :
    (asset_data.1.zip (asset_data.2.1.zip asset_data.2.2)).filter (fun e => e.2.1 == 0)
      = asset_data.1.zip (asset_data.2.1.zip asset_data.2.2) := by
  rw [List.filter_eq_self]
  intro e he
  have h1 := List.of_mem_zip he
  have h2 := List.of_mem_zip h1.2
  have := h0 e.2.1 h2.1
  simp [this]

/-- C6: for an all-zero identifier sequence, aggregation makes no chain-reader
calls (the result does not depend on the reader) and returns the map that sums
each entry's amount under its address, with summation on collision; in
particular `([addrX, addrY], [0, 0], [100, 50])` yields exactly
`{addrX: 100, addrY: 50}`. -/
theorem aggregation_accumulates_zero_id_entries
    (asset_data : List String × List Nat × List Nat)
    (h0 : ∀ id ∈ asset_data.2.1, id = 0) :
    (∀ w3 w3' : ChainReader,
        get_arcadia_account_nft_position asset_data w3 =
          get_arcadia_account_nft_position asset_data w3') ∧
    (∀ w3 : ChainReader, ∃ d, get_arcadia_account_nft_position asset_data w3 = some d ∧
        ∀ a : String,
          dict_get d a =
            if ((asset_data.1.zip (asset_data.2.1.zip asset_data.2.2)).any
                  fun x => x.1 == a) = true then
              some (sumAmounts (asset_data.1.zip (asset_data.2.1.zip asset_data.2.2)) a)
            else none) ∧
    (∀ (addrX addrY : String) (w3 : ChainReader), addrX ≠ addrY →
        get_arcadia_account_nft_position ([addrX, addrY], [0, 0], [100, 50]) w3 =
          some [(addrX, 100), (addrY, 50)]) := by
  refine ⟨?_, ?_, ?_⟩
  · intro w3 w3'
    rw [get_arcadia_account_nft_position, get_arcadia_account_nft_position,
      filter_nonzero_eq_nil asset_data h0]
    rfl
  · intro w3
    rw [get_arcadia_account_nft_position, filter_nonzero_eq_nil asset_data h0,
      filter_zero_eq_self asset_data h0]
    refine ⟨_, rfl, ?_⟩
    intro a
    rw [dict_get_fold_zero, show dict_get ([] : List (String × Nat)) a = none from rfl]
    simp only [Option.isSome_none, Bool.false_eq_true, false_or, Option.getD_none, Nat.zero_add]
  · intro addrX addrY w3 hne
    rw [get_arcadia_account_nft_position]
    have hx : ([addrX, addrY].zip ([0, 0].zip [100, 50] : List (Nat × Nat)))
        = [(addrX, 0, 100), (addrY, 0, 50)] := rfl
    rw [hx]
    simp [nonZeroFold, add_or_update_dict, beq_eq_false_iff_ne.mpr hne]

/-- C5: a non-zero-identifier entry whose position lookup fails, or whose
token pair has no match in the static pool table, is recorded under its own
contract address with amount 0, and processing of subsequent entries
continues; the failure never aborts the aggregation. -/
theorem aggregation_degrades_to_presence_marker
    (w3 : ChainReader) (r : List (String × Nat)) (addr : String) (tid amt : Nat)
    (rest : List (String × Nat × Nat)) (htid : tid ≠ 0)
    (hfail : w3.positions addr tid = none ∨
      ∃ d, w3.positions addr tid = some d ∧
        pool_lookup.find? (fun p => p.1 == (str_lower d.token0, str_lower d.token1)) = none) :
    processNonZero w3 r (addr, tid, amt) = some (add_or_update_dict r addr 0) ∧
    (dict_get (add_or_update_dict r addr 0) addr).isSome = true ∧
    nonZeroFold w3 (some r) ((addr, tid, amt) :: rest)
      = nonZeroFold w3 (some (add_or_update_dict r addr 0)) rest ∧
    get_arcadia_account_nft_position ([addr], [tid], [amt]) w3 = some [(addr, 0)] := by
  have hstep : ∀ r' : List (String × Nat),
      processNonZero w3 r' (addr, tid, amt) = some (add_or_update_dict r' addr 0) := by
    intro r'
    rcases hfail with hnone | ⟨d, hd, hfind⟩
    · simp [processNonZero, hnone]
    · simp [processNonZero, hd, hfind]
  refine ⟨hstep r, ?_, ?_, ?_⟩
  · rw [dict_get_add_or_update, if_pos rfl]
    rfl
  · simp [nonZeroFold, hstep r]
  · rw [get_arcadia_account_nft_position]
    have hz : (tid == 0) = false := beq_eq_false_iff_ne.mpr htid
    have hnz : (tid != 0) = true := by simp [bne, hz]
    simp only [List.zip, List.zipWith, List.filter, hz, hnz, List.foldl_nil]
    rw [show nonZeroFold w3 (some []) [(addr, tid, amt)]
        = (some [] : Option (List (String × Nat))).bind
            (fun r' => processNonZero w3 r' (addr, tid, amt)) from rfl]
    simp [hstep []]
    rfl

/-- C7: a non-zero-identifier entry whose position lookup and pool-mapping
lookup succeed but whose slot0 read fails is skipped entirely: the result map
is unchanged (no presence marker) and subsequent entries are still
processed. -/
theorem aggregation_skips_entry_on_failed_slot0
    (w3 : ChainReader) (r : List (String × Nat)) (addr : String) (tid amt : Nat)
    (rest : List (String × Nat × Nat)) (htid : tid ≠ 0) (d : PositionDetails)
    (mp : (String × String) × PoolMapping)
    (hpos : w3.positions addr tid = some d)
    (hfind : pool_lookup.find? (fun p => p.1 == (str_lower d.token0, str_lower d.token1)) = some mp)
    (hslot : w3.slot0 mp.2.pool = none) :
    processNonZero w3 r (addr, tid, amt) = some r ∧
    nonZeroFold w3 (some r) ((addr, tid, amt) :: rest) = nonZeroFold w3 (some r) rest ∧
    get_arcadia_account_nft_position ([addr], [tid], [amt]) w3 = some [] := by
  have hstep : ∀ r' : List (String × Nat),
      processNonZero w3 r' (addr, tid, amt) = some r' := by
    intro r'
    simp [processNonZero, hpos, hfind, hslot]
  refine ⟨hstep r, by simp [nonZeroFold, hstep r], ?_⟩
  rw [get_arcadia_account_nft_position]
  have hz : (tid == 0) = false := beq_eq_false_iff_ne.mpr htid
  have hnz : (tid != 0) = true := by simp [bne, hz]
  simp only [List.zip, List.zipWith, List.filter, hz, hnz, List.foldl_nil]
  rw [show nonZeroFold w3 (some []) [(addr, tid, amt)]
      = (some [] : Option (List (String × Nat))).bind
          (fun r' => processNonZero w3 r' (addr, tid, amt)) from rfl]
  simp [hstep []]

/-- C8: both amount conversions are independent of the order of their two
sqrt-price arguments, thanks to the internal normalization swap. -/
theorem amount_for_liquidity_order_independent (A B L : Nat)
    (hAB : A ≠ B) (hA : A ≠ 0) (hB : B ≠ 0) :
    get_amount0_for_liquidity A B L = get_amount0_for_liquidity B A L ∧
    get_amount1_for_liquidity A B L = get_amount1_for_liquidity B A L := by
  rcases lt_trichotomy A B with h | h | h
  · have h1 : ¬ A > B := by omega
    have h2 : B > A := h
    exact ⟨by simp [get_amount0_for_liquidity, h1, h2],
      by simp [get_amount1_for_liquidity, h1, h2]⟩
  · exact absurd h hAB
  · have h1 : A > B := h
    have h2 : ¬ B > A := by omega
    exact ⟨by simp [get_amount0_for_liquidity, h1, h2],
      by simp [get_amount1_for_liquidity, h1, h2]⟩

/-- C9: at tick 0 the sqrt ratio is exactly `2^96`, the Q96 encoding of 1.0. -/
theorem sqrt_ratio_at_tick_zero_is_one : get_sqrt_ratio_at_tick 0 = some (2 ^ 96) := by
  decide

theorem aggregation_degrades_to_presence_marker_witness :
    processNonZero ⟨fun _ _ => none, fun _ => none⟩ [] ("0xAAA", 1, 7)
      = some (add_or_update_dict [] "0xAAA" 0) ∧
    get_arcadia_account_nft_position (["0xAAA"], [1], [7]) ⟨fun _ _ => none, fun _ => none⟩
      = some [("0xAAA", 0)] :=
  have h := aggregation_degrades_to_presence_marker ⟨fun _ _ => none, fun _ => none⟩ []
    "0xAAA" 1 7 [("0xBBB", 2, 3)] (by decide) (Or.inl rfl)
  ⟨h.1, h.2.2.2⟩

theorem aggregation_accumulates_zero_id_entries_witness :
    get_arcadia_account_nft_position (["0xA", "0xB"], [0, 0], [100, 50])
        ⟨fun _ _ => none, fun _ => none⟩
      = some [("0xA", 100), ("0xB", 50)] :=
  (aggregation_accumulates_zero_id_entries (["0xA", "0xB"], [0, 0], [100, 50])
      (by decide)).2.2 "0xA" "0xB" ⟨fun _ _ => none, fun _ => none⟩ (by decide)

theorem aggregation_skips_entry_on_failed_slot0_witness :
    processNonZero
        ⟨fun _ _ => some
          { nonce := 0, operator := "0x0"
          , token0 := "0x4200000000000000000000000000000000000006"
          , token1 := "0x833589fCD6eDb6E08f4c7C32D4f71b54bdA02913"
          , fee := 500, tickLower := -100, tickUpper := 100, liquidity := 1000
          , feeGrowthInside0LastX128 := 0, feeGrowthInside1LastX128 := 0
          , tokensOwed0 := 0, tokensOwed1 := 0 }, fun _ => none⟩
        [] ("0xAAA", 1, 7)
      = some [] ∧
    get_arcadia_account_nft_position (["0xAAA"], [1], [7])
        ⟨fun _ _ => some
          { nonce := 0, operator := "0x0"
          , token0 := "0x4200000000000000000000000000000000000006"
          , token1 := "0x833589fCD6eDb6E08f4c7C32D4f71b54bdA02913"
          , fee := 500, tickLower := -100, tickUpper := 100, liquidity := 1000
          , feeGrowthInside0LastX128 := 0, feeGrowthInside1LastX128 := 0
          , tokensOwed0 := 0, tokensOwed1 := 0 }, fun _ => none⟩
      = some [] :=
  have h := aggregation_skips_entry_on_failed_slot0
    ⟨fun _ _ => some
      { nonce := 0, operator := "0x0"
      , token0 := "0x4200000000000000000000000000000000000006"
      , token1 := "0x833589fCD6eDb6E08f4c7C32D4f71b54bdA02913"
      , fee := 500, tickLower := -100, tickUpper := 100, liquidity := 1000
      , feeGrowthInside0LastX128 := 0, feeGrowthInside1LastX128 := 0
      , tokensOwed0 := 0, tokensOwed1 := 0 }, fun _ => none⟩
    [] "0xAAA" 1 7 [("0xBBB", 2, 3)] (by decide)
    { nonce := 0, operator := "0x0"
    , token0 := "0x4200000000000000000000000000000000000006"
    , token1 := "0x833589fCD6eDb6E08f4c7C32D4f71b54bdA02913"
    , fee := 500, tickLower := -100, tickUpper := 100, liquidity := 1000
    , feeGrowthInside0LastX128 := 0, feeGrowthInside1LastX128 := 0
    , tokensOwed0 := 0, tokensOwed1 := 0 }
    (("0x4200000000000000000000000000000000000006",
        "0x833589fcd6edb6e08f4c7c32d4f71b54bda02913"),
      { name := "wETH-USDC"
      , pool := "0xd0b53D9277642d899DF5C87A3966A349A798F224"
      , token0 := "0x4200000000000000000000000000000000000006"
      , token1 := "0x833589fCD6eDb6E08f4c7C32D4f71b54bdA02913"
      , decimal0 := 18, decimal1 := 6 })
    rfl (by rfl) rfl
  ⟨h.1, h.2.2⟩

theorem amount_for_liquidity_order_independent_witness :
    get_amount0_for_liquidity 2 3 5 = get_amount0_for_liquidity 3 2 5 ∧
    get_amount1_for_liquidity 2 3 5 = get_amount1_for_liquidity 3 2 5 :=
  amount_for_liquidity_order_independent 2 3 5 (by decide) (by decide) (by decide)

/-! ## Analysis of the tick-ratio chain

`ratioAbs` is re-expressed as a fold over the list of magic constants that
consumes the bits of `abs(tick)` from the least significant end.  The fold is
then bracketed between exact integer products (floor rounding loses at most
one unit per applied step), and a per-tick decrement factor of the exact
products is established by a binary-carry induction, which yields strict
monotonicity and the value bounds without enumerating the tick domain. -/

/-- The twenty magic constants of `get_sqrt_ratio_at_tick`: the bit-0 seed
followed by the nineteen multipliers, ordered by bit position. -/
def magicSeq : List Nat :=
  [ 0xFFFCB933BD6FAD37AA2D162D1A594001
  , 0xFFF97272373D413259A46990580E213A
  , 0xFFF2E50F5F656932EF12357CF3C7FDCC
  , 0xFFE5CACA7E10E4E61C3624EAA0941CD0
  , 0xFFCB9843D60F6159C9DB58835C926644
  , 0xFF973B41FA98C081472E6896DFB254C0
  , 0xFF2EA16466C96A3843EC78B326B52861
  , 0xFE5DEE046A99A2A811C461F1969C3053
  , 0xFCBE86C7900A88AEDCFFC83B479AA3A4
  , 0xF987A7253AC413176F2B074CF7815E54
  , 0xF3392B0822B70005940C7A398E4B70F3
  , 0xE7159475A2C29B7443B29C7FA6E889D9
  , 0xD097F3BDFD2022B8845AD8F792AA5825
  , 0xA9F746462D870FDF8A65DC1F90E061E5
  , 0x70D869A156D2A1B890BB3DF62BAF32F7
  , 0x31BE135F97D08FD981231505542FCFA6
  , 0x9AA508B5B7A84E1C677DE54F3E99BC9
  , 0x5D6AF8DEDB81196699C329225EE604
  , 0x2216E584F5FA1EA926041BEDFE98
  , 0x48A170391F7DC42444E8FA2 ]

/-- The multiply-shift chain as a fold consuming the bits of `k` from the
least significant end.  `chainR magicSeq n (2^128) = ratioAbs n` (proved
below): the bit-0 step maps the start value `2^128` exactly to the seed. -/
def chainR : List Nat → Nat → Nat → Nat
  | [], _, x => x
  | m :: ms, k, x => chainR ms (k / 2) (if k % 2 = 1 then (x * m) >>> 128 else x)

/-- The exact product of the magic constants selected by the bits of `k`. -/
def chainQ : List Nat → Nat → Nat
  | [], _ => 1
  | m :: ms, k => (if k % 2 = 1 then m else 1) * chainQ ms (k / 2)

/-- The scale (128 bits per applied step) accumulated by the selected bits. -/
def chainS : List Nat → Nat → Nat
  | [], _ => 0
  | _ :: ms, k => (if k % 2 = 1 then 128 else 0) + chainS ms (k / 2)

/-- The same chain with explicit bit masks, mirroring the shape of
`ratioAbs`. -/
def chainRmask : List Nat → Nat → Nat → Nat → Nat
  | [], _, _, x => x
  | m :: rest, n, mask, x => chainRmask rest n (2 * mask) (mstep n mask m x)

theorem and_two_pow_ne_zero_iff (n j : Nat) : (n &&& 2 ^ j ≠ 0) ↔ ((n >>> j) % 2 = 1) := by
  by_cases h : n / 2 ^ j % 2 = 1
  · simp [Nat.and_two_pow, Nat.testBit_to_div_mod, h, Nat.shiftRight_eq_div_pow,
      (Nat.two_pow_pos j).ne']
  · simp [Nat.and_two_pow, Nat.testBit_to_div_mod, h, Nat.shiftRight_eq_div_pow]

theorem chainR_shiftRight (ms : List Nat) : ∀ (n j x : Nat),
    chainR ms (n >>> j) x = chainRmask ms n (2 ^ j) x := by
  induction ms with
  | nil => intro n j x; rfl
  | cons m rest ih =>
    intro n j x
    rw [chainR, chainRmask]
    have hdiv : (n >>> j) / 2 = n >>> (j + 1) := (Nat.shiftRight_succ n j).symm
    have hx : (if (n >>> j) % 2 = 1 then (x * m) >>> 128 else x) = mstep n (2 ^ j) m x := by
      rw [mstep]
      exact if_congr (and_two_pow_ne_zero_iff n j).symm rfl rfl
    rw [hdiv, hx, show (2 : Nat) * 2 ^ j = 2 ^ (j + 1) by ring]
    exact ih n (j + 1) (mstep n (2 ^ j) m x)

theorem ratioAbs_eq_chainR (n : Nat) : ratioAbs n = chainR magicSeq n (2 ^ 128) := by
  have h0 : chainR magicSeq n (2 ^ 128) = chainRmask magicSeq n (2 ^ 0) (2 ^ 128) := by
    rw [← chainR_shiftRight]
    norm_num
  rw [h0]
  have hseed : mstep n 1 0xFFFCB933BD6FAD37AA2D162D1A594001 (2 ^ 128)
      = if n &&& 0x1 ≠ 0 then 0xFFFCB933BD6FAD37AA2D162D1A594001
        else 0x100000000000000000000000000000000 := by
    rw [mstep,
      show ((2 : Nat) ^ 128 * 0xFFFCB933BD6FAD37AA2D162D1A594001) >>> 128
        = 0xFFFCB933BD6FAD37AA2D162D1A594001 by decide,
      show (2 : Nat) ^ 128 = 0x100000000000000000000000000000000 by decide]
  simp only [magicSeq, chainRmask]
  norm_num [hseed]
  rfl

theorem lt_div_add_one_mul (a b : Nat) (hb : 0 < b) : a < (a / b + 1) * b := by
  have h1 := Nat.div_add_mod a b
  have h2 := Nat.mod_lt a hb
  calc a = b * (a / b) + a % b := h1.symm
    _ < b * (a / b) + b := Nat.add_lt_add_left h2 (b * (a / b))
    _ = (a / b + 1) * b := by ring

/-- The floored multiply-shift chain is bracketed between the exact product
`chainQ` at scale `chainS`, losing at most one unit per list element. -/
theorem chain_bounds (ms : List Nat) : ∀ (k x Q S e : Nat),
    (∀ m ∈ ms, 0 < m ∧ m ≤ 2 ^ 128) →
    x * 2 ^ S ≤ Q * 2 ^ 128 → Q * 2 ^ 128 ≤ (x + e) * 2 ^ S →
    chainR ms k x * 2 ^ (S + chainS ms k) ≤ chainQ ms k * Q * 2 ^ 128 ∧
    chainQ ms k * Q * 2 ^ 128 ≤ (chainR ms k x + e + ms.length) * 2 ^ (S + chainS ms k) := by
  induction ms with
  | nil =>
    intro k x Q S e _ h1 h2
    refine ⟨?_, ?_⟩
    · simpa [chainR, chainQ, chainS] using h1
    · simpa [chainR, chainQ, chainS] using h2
  | cons m rest ih =>
    intro k x Q S e hm h1 h2
    have hmhead := hm m (List.mem_cons_self m rest)
    have hmrest : ∀ m' ∈ rest, 0 < m' ∧ m' ≤ 2 ^ 128 :=
      fun m' hmem => hm m' (List.mem_cons_of_mem m hmem)
    rw [chainR, chainQ, chainS]
    by_cases hk : k % 2 = 1
    · rw [if_pos hk, if_pos hk, if_pos hk]
      have ha : ((x * m) >>> 128) * 2 ^ (S + 128) ≤ (m * Q) * 2 ^ 128 := by
        have hdiv : ((x * m) >>> 128) * 2 ^ 128 ≤ x * m := by
          rw [Nat.shiftRight_eq_div_pow]
          exact Nat.div_mul_le_self (x * m) (2 ^ 128)
        calc ((x * m) >>> 128) * 2 ^ (S + 128)
            = (((x * m) >>> 128) * 2 ^ 128) * 2 ^ S := by ring
          _ ≤ (x * m) * 2 ^ S := Nat.mul_le_mul_right _ hdiv
          _ = m * (x * 2 ^ S) := by ring
          _ ≤ m * (Q * 2 ^ 128) := Nat.mul_le_mul_left _ h1
          _ = (m * Q) * 2 ^ 128 := by ring
      have hb : (m * Q) * 2 ^ 128 ≤ (((x * m) >>> 128) + (e + 1)) * 2 ^ (S + 128) := by
        have hlt : x * m ≤ (((x * m) >>> 128) + 1) * 2 ^ 128 := by
          rw [Nat.shiftRight_eq_div_pow]
          exact le_of_lt (lt_div_add_one_mul (x * m) (2 ^ 128) (by positivity))
        calc (m * Q) * 2 ^ 128 = m * (Q * 2 ^ 128) := by ring
          _ ≤ m * ((x + e) * 2 ^ S) := Nat.mul_le_mul_left _ h2
          _ = (x * m) * 2 ^ S + (m * e) * 2 ^ S := by ring
          _ ≤ ((((x * m) >>> 128) + 1) * 2 ^ 128) * 2 ^ S + (2 ^ 128 * e) * 2 ^ S := by
              have hme : m * e ≤ 2 ^ 128 * e := Nat.mul_le_mul_right _ hmhead.2
              exact Nat.add_le_add (Nat.mul_le_mul_right _ hlt) (Nat.mul_le_mul_right _ hme)
          _ = (((x * m) >>> 128) + (e + 1)) * 2 ^ (S + 128) := by ring
      have hIH := ih (k / 2) ((x * m) >>> 128) (m * Q) (S + 128) (e + 1) hmrest ha hb
      rw [List.length_cons]
      refine ⟨?_, ?_⟩
      · calc chainR rest (k / 2) ((x * m) >>> 128) * 2 ^ (S + (128 + chainS rest (k / 2)))
            = chainR rest (k / 2) ((x * m) >>> 128)
                * 2 ^ ((S + 128) + chainS rest (k / 2)) := by ring_nf
          _ ≤ chainQ rest (k / 2) * (m * Q) * 2 ^ 128 := hIH.1
          _ = m * chainQ rest (k / 2) * Q * 2 ^ 128 := by ring
      · calc m * chainQ rest (k / 2) * Q * 2 ^ 128
            = chainQ rest (k / 2) * (m * Q) * 2 ^ 128 := by ring
          _ ≤ (chainR rest (k / 2) ((x * m) >>> 128) + (e + 1) + rest.length)
                * 2 ^ ((S + 128) + chainS rest (k / 2)) := hIH.2
          _ = (chainR rest (k / 2) ((x * m) >>> 128) + e + (rest.length + 1))
                * 2 ^ (S + (128 + chainS rest (k / 2))) := by ring_nf
    · rw [if_neg hk, if_neg hk, if_neg hk]
      have hIH := ih (k / 2) x Q S e hmrest h1 h2
      rw [List.length_cons]
      refine ⟨?_, ?_⟩
      · calc chainR rest (k / 2) x * 2 ^ (S + (0 + chainS rest (k / 2)))
            = chainR rest (k / 2) x * 2 ^ (S + chainS rest (k / 2)) := by ring_nf
          _ ≤ chainQ rest (k / 2) * Q * 2 ^ 128 := hIH.1
          _ = 1 * chainQ rest (k / 2) * Q * 2 ^ 128 := by ring
      · calc 1 * chainQ rest (k / 2) * Q * 2 ^ 128
            = chainQ rest (k / 2) * Q * 2 ^ 128 := by ring
          _ ≤ (chainR rest (k / 2) x + e + rest.length) * 2 ^ (S + chainS rest (k / 2)) := hIH.2
          _ ≤ (chainR rest (k / 2) x + e + (rest.length + 1))
                * 2 ^ (S + (0 + chainS rest (k / 2))) := by
              have : S + chainS rest (k / 2) = S + (0 + chainS rest (k / 2)) := by ring
              rw [← this]
              exact Nat.mul_le_mul_right _ (by omega)

theorem ratioAbs_bounds (n : Nat) :
    ratioAbs n * 2 ^ chainS magicSeq n ≤ chainQ magicSeq n * 2 ^ 128 ∧
    chainQ magicSeq n * 2 ^ 128 ≤ (ratioAbs n + 20) * 2 ^ chainS magicSeq n := by
  have h := chain_bounds magicSeq n (2 ^ 128) 1 0 0 (by decide)
    (by norm_num) (by norm_num)
  rw [ratioAbs_eq_chainR]
  have hlen : magicSeq.length = 20 := rfl
  constructor
  · have h1 := h.1
    rw [Nat.zero_add, mul_one] at h1
    exact h1
  · have h2 := h.2
    rw [Nat.zero_add, mul_one, hlen, Nat.add_zero] at h2
    exact h2

theorem chainQ_le_pow (ms : List Nat) : ∀ k, (∀ m ∈ ms, m ≤ 2 ^ 128) →
    chainQ ms k ≤ 2 ^ chainS ms k := by
  induction ms with
  | nil => intro k _; simp [chainQ, chainS]
  | cons m rest ih =>
    intro k hm
    have hmh := hm m (List.mem_cons_self m rest)
    have hmr : ∀ m' ∈ rest, m' ≤ 2 ^ 128 := fun m' h' => hm m' (List.mem_cons_of_mem m h')
    rw [chainQ, chainS]
    by_cases hk : k % 2 = 1
    · rw [if_pos hk, if_pos hk, pow_add]
      exact Nat.mul_le_mul hmh (ih (k / 2) hmr)
    · rw [if_neg hk, if_neg hk, one_mul, Nat.zero_add]
      exact ih (k / 2) hmr

theorem prod_le_chainQ (ms : List Nat) : ∀ k, (∀ m ∈ ms, m ≤ 2 ^ 128) →
    ms.prod * 2 ^ chainS ms k ≤ chainQ ms k * 2 ^ (128 * ms.length) := by
  induction ms with
  | nil => intro k _; simp [chainQ, chainS]
  | cons m rest ih =>
    intro k hm
    have hmh := hm m (List.mem_cons_self m rest)
    have hmr : ∀ m' ∈ rest, m' ≤ 2 ^ 128 := fun m' h' => hm m' (List.mem_cons_of_mem m h')
    rw [chainQ, chainS, List.prod_cons, List.length_cons]
    by_cases hk : k % 2 = 1
    · rw [if_pos hk, if_pos hk]
      calc m * rest.prod * 2 ^ (128 + chainS rest (k / 2))
          = (m * 2 ^ 128) * (rest.prod * 2 ^ chainS rest (k / 2)) := by ring
        _ ≤ (m * 2 ^ 128) * (chainQ rest (k / 2) * 2 ^ (128 * rest.length)) :=
            Nat.mul_le_mul_left _ (ih (k / 2) hmr)
        _ = m * chainQ rest (k / 2) * 2 ^ (128 * (rest.length + 1)) := by ring
    · rw [if_neg hk, if_neg hk]
      calc m * rest.prod * 2 ^ (0 + chainS rest (k / 2))
          = m * (rest.prod * 2 ^ chainS rest (k / 2)) := by
            rw [Nat.zero_add]; ring
        _ ≤ 2 ^ 128 * (chainQ rest (k / 2) * 2 ^ (128 * rest.length)) :=
            Nat.mul_le_mul hmh (ih (k / 2) hmr)
        _ = 1 * chainQ rest (k / 2) * 2 ^ (128 * (rest.length + 1)) := by ring

theorem chainQ_incr (ms : List Nat) : ∀ k : Nat, k + 1 < 2 ^ ms.length →
    ∃ j, j < ms.length ∧
      chainQ ms (k + 1) * (ms.take j).prod = ms.getD j 0 * chainQ ms k ∧
      chainS ms (k + 1) + 128 * j = 128 + chainS ms k := by
  induction ms with
  | nil =>
    intro k hk
    simp at hk
  | cons m rest ih =>
    intro k hk
    by_cases hk2 : k % 2 = 1
    · have hk' : k / 2 + 1 < 2 ^ rest.length := by
        rw [List.length_cons, pow_succ] at hk
        omega
      obtain ⟨j, hj, hQ, hS⟩ := ih (k / 2) hk'
      refine ⟨j + 1, by rw [List.length_cons]; omega, ?_, ?_⟩
      · rw [chainQ, chainQ, if_neg (by omega : ¬((k + 1) % 2 = 1)), if_pos hk2,
          (by omega : (k + 1) / 2 = k / 2 + 1), List.take_succ_cons, List.prod_cons,
          List.getD_cons_succ]
        calc 1 * chainQ rest (k / 2 + 1) * (m * (rest.take j).prod)
            = m * (chainQ rest (k / 2 + 1) * (rest.take j).prod) := by ring
          _ = m * (rest.getD j 0 * chainQ rest (k / 2)) := by rw [hQ]
          _ = rest.getD j 0 * (m * chainQ rest (k / 2)) := by ring
      · rw [chainS, chainS, if_neg (by omega : ¬((k + 1) % 2 = 1)), if_pos hk2,
          (by omega : (k + 1) / 2 = k / 2 + 1)]
        omega
    · refine ⟨0, by rw [List.length_cons]; omega, ?_, ?_⟩
      · rw [chainQ, chainQ, if_pos (by omega : (k + 1) % 2 = 1), if_neg hk2,
          (by omega : (k + 1) / 2 = k / 2), List.take_zero, List.prod_nil,
          List.getD_cons_zero]
        ring
      · rw [chainS, chainS, if_pos (by omega : (k + 1) % 2 = 1), if_neg hk2,
          (by omega : (k + 1) / 2 = k / 2)]
        omega

set_option exponentiation.threshold 10000 in
set_option maxRecDepth 4000 in
/-- The twenty concrete per-carry inequalities: replacing the cleared factors
below bit `j` by the newly set factor at bit `j` shrinks the exact product by
a factor of at least `1 - 2^(-15)`. -/
theorem magicSeq_checks : ∀ j, j < 20 →
    magicSeq.getD j 0 * 2 ^ (128 * j) * 2 ^ 15
      ≤ (2 ^ 15 - 1) * (magicSeq.take j).prod * 2 ^ 128 := by
  decide

set_option exponentiation.threshold 10000 in
set_option maxRecDepth 4000 in
theorem magicSeq_prod_lower : 2 ^ 2484 ≤ magicSeq.prod := by decide

theorem magicSeq_pos : ∀ m ∈ magicSeq, 0 < m := by decide

theorem chainQ_decrement (k : Nat) (hk : k + 1 < 2 ^ 20) :
    chainQ magicSeq (k + 1) * 2 ^ chainS magicSeq k * 2 ^ 15
      ≤ (2 ^ 15 - 1) * chainQ magicSeq k * 2 ^ chainS magicSeq (k + 1) := by
  have hlen : magicSeq.length = 20 := rfl
  obtain ⟨j, hj, hQ, hS⟩ := chainQ_incr magicSeq k (by rw [hlen]; exact hk)
  have hchk := magicSeq_checks j (hlen ▸ hj)
  have hTpos : 0 < (magicSeq.take j).prod := by
    apply List.prod_pos
    intro m hmem
    exact magicSeq_pos m (List.mem_of_mem_take hmem)
  have hpow : (2 : Nat) ^ chainS magicSeq (k + 1) * 2 ^ (128 * j)
      = 2 ^ 128 * 2 ^ chainS magicSeq k := by
    rw [← pow_add, ← pow_add, hS]
  have key : (chainQ magicSeq (k + 1) * 2 ^ chainS magicSeq k * 2 ^ 15)
        * ((magicSeq.take j).prod * 2 ^ (128 * j))
      ≤ ((2 ^ 15 - 1) * chainQ magicSeq k * 2 ^ chainS magicSeq (k + 1))
        * ((magicSeq.take j).prod * 2 ^ (128 * j)) := by
    calc (chainQ magicSeq (k + 1) * 2 ^ chainS magicSeq k * 2 ^ 15)
          * ((magicSeq.take j).prod * 2 ^ (128 * j))
        = (chainQ magicSeq (k + 1) * (magicSeq.take j).prod)
            * (2 ^ chainS magicSeq k * 2 ^ 15 * 2 ^ (128 * j)) := by ring
      _ = (magicSeq.getD j 0 * chainQ magicSeq k)
            * (2 ^ chainS magicSeq k * 2 ^ 15 * 2 ^ (128 * j)) := by rw [hQ]
      _ = (magicSeq.getD j 0 * 2 ^ (128 * j) * 2 ^ 15)
            * (chainQ magicSeq k * 2 ^ chainS magicSeq k) := by ring
      _ ≤ ((2 ^ 15 - 1) * (magicSeq.take j).prod * 2 ^ 128)
            * (chainQ magicSeq k * 2 ^ chainS magicSeq k) := Nat.mul_le_mul_right _ hchk
      _ = ((2 ^ 15 - 1) * chainQ magicSeq k) * (magicSeq.take j).prod
            * (2 ^ 128 * 2 ^ chainS magicSeq k) := by ring
      _ = ((2 ^ 15 - 1) * chainQ magicSeq k) * (magicSeq.take j).prod
            * (2 ^ chainS magicSeq (k + 1) * 2 ^ (128 * j)) := by rw [hpow]
      _ = ((2 ^ 15 - 1) * chainQ magicSeq k * 2 ^ chainS magicSeq (k + 1))
            * ((magicSeq.take j).prod * 2 ^ (128 * j)) := by ring
  exact Nat.le_of_mul_le_mul_right key (Nat.mul_pos hTpos (by positivity))

theorem ratioAbs_le_two_pow (n : Nat) : ratioAbs n ≤ 2 ^ 128 := by
  have h1 := (ratioAbs_bounds n).1
  have h2 : chainQ magicSeq n ≤ 2 ^ chainS magicSeq n :=
    chainQ_le_pow magicSeq n (by decide)
  have h3 : ratioAbs n * 2 ^ chainS magicSeq n ≤ 2 ^ 128 * 2 ^ chainS magicSeq n := by
    calc ratioAbs n * 2 ^ chainS magicSeq n ≤ chainQ magicSeq n * 2 ^ 128 := h1
      _ ≤ 2 ^ chainS magicSeq n * 2 ^ 128 := Nat.mul_le_mul_right _ h2
      _ = 2 ^ 128 * 2 ^ chainS magicSeq n := by ring
  exact Nat.le_of_mul_le_mul_right h3 (by positivity)

theorem ratioAbs_lower (n : Nat) : 2 ^ 52 ≤ ratioAbs n + 20 := by
  have h1 := prod_le_chainQ magicSeq n (by decide)
  have h2 := (ratioAbs_bounds n).2
  have hlen : magicSeq.length = 20 := rfl
  rw [hlen] at h1
  have h3 : 2 ^ 2484 * 2 ^ chainS magicSeq n ≤ chainQ magicSeq n * 2 ^ (128 * 20) :=
    le_trans (Nat.mul_le_mul_right _ magicSeq_prod_lower) h1
  have h4 : 2 ^ 2484 * 2 ^ chainS magicSeq n
      ≤ ((ratioAbs n + 20) * 2 ^ chainS magicSeq n) * 2 ^ 2432 := by
    calc 2 ^ 2484 * 2 ^ chainS magicSeq n ≤ chainQ magicSeq n * 2 ^ (128 * 20) := h3
      _ = (chainQ magicSeq n * 2 ^ 128) * 2 ^ 2432 := by ring
      _ ≤ ((ratioAbs n + 20) * 2 ^ chainS magicSeq n) * 2 ^ 2432 :=
          Nat.mul_le_mul_right _ h2
  have hsplit : (2 : Nat) ^ 2484 = 2 ^ 52 * 2 ^ 2432 := by
    rw [show (2484 : Nat) = 52 + 2432 from rfl, pow_add]
  have h5 : (2 ^ 52 * 2 ^ 2432) * 2 ^ chainS magicSeq n
      ≤ ((ratioAbs n + 20) * 2 ^ 2432) * 2 ^ chainS magicSeq n := by
    calc (2 ^ 52 * 2 ^ 2432) * 2 ^ chainS magicSeq n
        = 2 ^ 2484 * 2 ^ chainS magicSeq n := by rw [hsplit]
      _ ≤ ((ratioAbs n + 20) * 2 ^ chainS magicSeq n) * 2 ^ 2432 := h4
      _ = ((ratioAbs n + 20) * 2 ^ 2432) * 2 ^ chainS magicSeq n := by ring
  have h6 := Nat.le_of_mul_le_mul_right h5 (show 0 < (2 : Nat) ^ chainS magicSeq n by positivity)
  exact Nat.le_of_mul_le_mul_right h6 (by positivity)

/-- Adjacent abs-tick ratios are separated by a gap of more than `2^33`. -/
theorem ratioAbs_gap (n : Nat) (hn : n + 1 < 2 ^ 20) :
    ratioAbs (n + 1) + 2 ^ 33 ≤ ratioAbs n := by
  have B1 := (ratioAbs_bounds (n + 1)).1
  have B2 := (ratioAbs_bounds n).2
  have D := chainQ_decrement n hn
  have low := ratioAbs_lower n
  have c1 : ratioAbs (n + 1) * 2 ^ 15 * (2 ^ chainS magicSeq (n + 1) * 2 ^ chainS magicSeq n)
      ≤ (2 ^ 15 - 1) * (ratioAbs n + 20)
          * (2 ^ chainS magicSeq (n + 1) * 2 ^ chainS magicSeq n) := by
    calc ratioAbs (n + 1) * 2 ^ 15 * (2 ^ chainS magicSeq (n + 1) * 2 ^ chainS magicSeq n)
        = (ratioAbs (n + 1) * 2 ^ chainS magicSeq (n + 1))
            * (2 ^ chainS magicSeq n * 2 ^ 15) := by ring
      _ ≤ (chainQ magicSeq (n + 1) * 2 ^ 128) * (2 ^ chainS magicSeq n * 2 ^ 15) :=
          Nat.mul_le_mul_right _ B1
      _ = (chainQ magicSeq (n + 1) * 2 ^ chainS magicSeq n * 2 ^ 15) * 2 ^ 128 := by ring
      _ ≤ ((2 ^ 15 - 1) * chainQ magicSeq n * 2 ^ chainS magicSeq (n + 1)) * 2 ^ 128 :=
          Nat.mul_le_mul_right _ D
      _ = ((2 ^ 15 - 1) * (chainQ magicSeq n * 2 ^ 128)) * 2 ^ chainS magicSeq (n + 1) := by
          ring
      _ ≤ ((2 ^ 15 - 1) * ((ratioAbs n + 20) * 2 ^ chainS magicSeq n))
            * 2 ^ chainS magicSeq (n + 1) :=
          Nat.mul_le_mul_right _ (Nat.mul_le_mul_left _ B2)
      _ = (2 ^ 15 - 1) * (ratioAbs n + 20)
            * (2 ^ chainS magicSeq (n + 1) * 2 ^ chainS magicSeq n) := by ring
  have c2 : ratioAbs (n + 1) * 2 ^ 15 ≤ (2 ^ 15 - 1) * (ratioAbs n + 20) :=
    Nat.le_of_mul_le_mul_right c1 (by positivity)
  norm_num at c2 low ⊢
  omega

theorem ratioAbs_pos (n : Nat) : 0 < ratioAbs n := by
  have h := ratioAbs_lower n
  norm_num at h
  omega

/-- The final renormalization of `get_sqrt_ratio_at_tick`: shift right by 32
bits, rounding up when any shifted-out bit is set. -/
def ceil32 (r : Nat) : Nat := (r >>> 32) + (if r % (1 <<< 32) ≠ 0 then 1 else 0)

theorem ceil32_eq (r : Nat) : ceil32 r = (r + 2 ^ 32 - 1) / 2 ^ 32 := by
  rw [ceil32, Nat.shiftRight_eq_div_pow, show (1 <<< 32 : Nat) = 2 ^ 32 by decide]
  norm_num
  by_cases h : r % 4294967296 = 0 <;> simp [h] <;> omega

theorem ceil32_lt_ceil32 (x y : Nat) (h : x + 2 ^ 32 ≤ y) : ceil32 x < ceil32 y := by
  rw [ceil32_eq, ceil32_eq]
  norm_num at h ⊢
  omega

theorem get_sqrt_neg (t : Int) (h1 : ¬ t > 0) (h2 : ¬ t.natAbs > MAX_TICK) :
    get_sqrt_ratio_at_tick t = some (ceil32 (ratioAbs t.natAbs)) := by
  simp [get_sqrt_ratio_at_tick, h1, h2, ceil32]

theorem get_sqrt_pos (t : Int) (h1 : t > 0) (h2 : ¬ t.natAbs > MAX_TICK) :
    get_sqrt_ratio_at_tick t = some (ceil32 ((1 <<< 256) / ratioAbs t.natAbs)) := by
  simp [get_sqrt_ratio_at_tick, h1, h2, ceil32, (ratioAbs_pos t.natAbs).ne']

theorem sqrt_ratio_isSome (t : Int) (h : t.natAbs ≤ MAX_TICK) :
    ∃ v, get_sqrt_ratio_at_tick t = some v := by
  by_cases hp : t > 0
  · exact ⟨_, get_sqrt_pos t hp (by omega)⟩
  · exact ⟨_, get_sqrt_neg t hp (by omega)⟩

theorem inv_ratio_gap (a b : Nat) (hgap : b + 2 ^ 33 ≤ a) (ha : a ≤ 2 ^ 128) (hb : 0 < b) :
    2 ^ 256 / a + 2 ^ 32 ≤ 2 ^ 256 / b := by
  have ha0 : 0 < a := by omega
  have hq : 2 ^ 128 ≤ 2 ^ 256 / a := by
    have hsplit : (2 : Nat) ^ 256 = 2 ^ 128 * 2 ^ 128 := by
      rw [show (256 : Nat) = 128 + 128 from rfl, pow_add]
    calc (2 : Nat) ^ 128 = 2 ^ 256 / 2 ^ 128 := by
          rw [hsplit, Nat.mul_div_cancel _ (by positivity)]
      _ ≤ 2 ^ 256 / a := Nat.div_le_div_left ha ha0
  have key : (2 ^ 256 / a + 2 ^ 32) * b ≤ 2 ^ 256 := by
    have h1 : (2 ^ 256 / a) * a ≤ 2 ^ 256 := Nat.div_mul_le_self _ _
    have hb' : b ≤ a - 2 ^ 33 := by omega
    have h2 : 2 ^ 32 * a ≤ (2 ^ 256 / a) * 2 ^ 33 := by
      calc (2 : Nat) ^ 32 * a ≤ 2 ^ 32 * (2 ^ 256 / a) :=
            Nat.mul_le_mul_left _ (le_trans ha hq)
        _ = (2 ^ 256 / a) * 2 ^ 32 := by ring
        _ ≤ (2 ^ 256 / a) * 2 ^ 33 := Nat.mul_le_mul_left _ (by norm_num)
    calc (2 ^ 256 / a + 2 ^ 32) * b
        ≤ (2 ^ 256 / a + 2 ^ 32) * (a - 2 ^ 33) := Nat.mul_le_mul_left _ hb'
      _ = (2 ^ 256 / a) * a + 2 ^ 32 * a - ((2 ^ 256 / a) * 2 ^ 33 + 2 ^ 32 * 2 ^ 33) := by
          rw [Nat.mul_sub, add_mul, add_mul]
      _ ≤ 2 ^ 256 := by
          generalize hA : (2 ^ 256 / a) * a = A at h1 ⊢
          generalize hB : (2 : Nat) ^ 32 * a = B at h2 ⊢
          generalize hC : (2 ^ 256 / a) * 2 ^ 33 = C at h2 ⊢
          norm_num at h1 h2 ⊢
          omega
  exact (Nat.le_div_iff_mul_le hb).mpr key

theorem sqrt_consecutive (t : Int) (hlo : -887272 ≤ t) (hhi : t < 887272) :
    ∀ v1 v2, get_sqrt_ratio_at_tick t = some v1 →
      get_sqrt_ratio_at_tick (t + 1) = some v2 → v1 < v2 := by
  intro v1 v2 hv1 hv2
  rcases lt_trichotomy t 0 with hneg | hzero | hpos
  · have h1 : ¬ t > 0 := by omega
    have h1' : ¬ (t + 1) > 0 := by omega
    have h2 : ¬ t.natAbs > MAX_TICK := by simp only [MAX_TICK]; omega
    have h2' : ¬ (t + 1).natAbs > MAX_TICK := by simp only [MAX_TICK]; omega
    rw [get_sqrt_neg t h1 h2] at hv1
    rw [get_sqrt_neg (t + 1) h1' h2'] at hv2
    have e1 := Option.some.inj hv1
    have e2 := Option.some.inj hv2
    subst e1
    subst e2
    have hn : t.natAbs = (t + 1).natAbs + 1 := by omega
    rw [hn]
    apply ceil32_lt_ceil32
    have hgap := ratioAbs_gap ((t + 1).natAbs) (by norm_num; omega)
    norm_num at hgap ⊢
    omega
  · subst hzero
    have e0 : get_sqrt_ratio_at_tick 0 = some 79228162514264337593543950336 := by decide
    have e1 : get_sqrt_ratio_at_tick (0 + 1) = some 79232123823359799118286999568 := by decide
    rw [e0] at hv1
    rw [e1] at hv2
    have q1 := Option.some.inj hv1
    have q2 := Option.some.inj hv2
    omega
  · have h1' : (t + 1) > 0 := by omega
    have h2 : ¬ t.natAbs > MAX_TICK := by simp only [MAX_TICK]; omega
    have h2' : ¬ (t + 1).natAbs > MAX_TICK := by simp only [MAX_TICK]; omega
    rw [get_sqrt_pos t hpos h2] at hv1
    rw [get_sqrt_pos (t + 1) h1' h2'] at hv2
    have e1 := Option.some.inj hv1
    have e2 := Option.some.inj hv2
    subst e1
    subst e2
    have hn : (t + 1).natAbs = t.natAbs + 1 := by omega
    rw [hn, show (1 <<< 256 : Nat) = 2 ^ 256 by decide]
    apply ceil32_lt_ceil32
    exact inv_ratio_gap (ratioAbs t.natAbs) (ratioAbs (t.natAbs + 1))
      (ratioAbs_gap t.natAbs (by norm_num; omega)) (ratioAbs_le_two_pow _) (ratioAbs_pos _)

theorem sqrt_mono_aux : ∀ (d : Nat) (t : Int), -887272 ≤ t → t + 1 + (d : Int) ≤ 887272 →
    ∀ v1 v2, get_sqrt_ratio_at_tick t = some v1 →
      get_sqrt_ratio_at_tick (t + 1 + (d : Int)) = some v2 → v1 < v2 := by
  intro d
  induction d with
  | zero =>
    intro t h1 h2 v1 v2 hv1 hv2
    have hcast : t + 1 + ((0 : Nat) : Int) = t + 1 := by push_cast; ring
    rw [hcast] at hv2 h2
    exact sqrt_consecutive t h1 (by omega) v1 v2 hv1 hv2
  | succ d ih =>
    intro t h1 h2 v1 v2 hv1 hv2
    have hcast : t + 1 + ((d + 1 : Nat) : Int) = (t + 1 + (d : Int)) + 1 := by push_cast; ring
    rw [hcast] at hv2 h2
    obtain ⟨vm, hvm⟩ := sqrt_ratio_isSome (t + 1 + (d : Int)) (by simp only [MAX_TICK]; omega)
    exact lt_trans (ih t h1 (by omega) v1 vm hv1 hvm)
      (sqrt_consecutive (t + 1 + (d : Int)) (by omega) (by omega) vm v2 hvm hv2)

theorem sqrt_mono (t1 t2 : Int) (h1 : -887272 ≤ t1) (h2 : t1 < t2) (h3 : t2 ≤ 887272)
    (v1 v2 : Nat) (hv1 : get_sqrt_ratio_at_tick t1 = some v1)
    (hv2 : get_sqrt_ratio_at_tick t2 = some v2) : v1 < v2 := by
  have hd : t2 = t1 + 1 + ((t2 - t1 - 1).toNat : Int) := by omega
  rw [hd] at hv2 h3
  exact sqrt_mono_aux (t2 - t1 - 1).toNat t1 h1 h3 v1 v2 hv1 hv2

theorem sqrt_some_in_range (t : Int) (v : Nat) (hv : get_sqrt_ratio_at_tick t = some v) :
    ¬ t.natAbs > MAX_TICK := by
  intro hc
  rw [get_sqrt_ratio_at_tick] at hv
  simp [hc] at hv

theorem inv_lower (a : Nat) (ha : a ≤ 2 ^ 128) (ha0 : 0 < a) : 2 ^ 128 ≤ 2 ^ 256 / a := by
  have hsplit : (2 : Nat) ^ 256 = 2 ^ 128 * 2 ^ 128 := by
    rw [show (256 : Nat) = 128 + 128 from rfl, pow_add]
  calc (2 : Nat) ^ 128 = 2 ^ 256 / 2 ^ 128 := by
        rw [hsplit, Nat.mul_div_cancel _ (by positivity)]
    _ ≤ 2 ^ 256 / a := Nat.div_le_div_left ha ha0

/-- C2: `get_sqrt_ratio_at_tick` is strictly monotonically increasing on the
tick domain `[-887272, 887272]`: both conversions succeed and a smaller tick
yields a strictly smaller sqrt ratio. -/
theorem sqrt_ratio_strictly_increasing (t1 t2 : Int)
    (h1 : -887272 ≤ t1) (h2 : t1 < t2) (h3 : t2 ≤ 887272) :
    ∃ v1 v2, get_sqrt_ratio_at_tick t1 = some v1 ∧
      get_sqrt_ratio_at_tick t2 = some v2 ∧ v1 < v2 := by
  obtain ⟨v1, hv1⟩ := sqrt_ratio_isSome t1 (by simp only [MAX_TICK]; omega)
  obtain ⟨v2, hv2⟩ := sqrt_ratio_isSome t2 (by simp only [MAX_TICK]; omega)
  exact ⟨v1, v2, hv1, hv2, sqrt_mono t1 t2 h1 h2 h3 v1 v2 hv1 hv2⟩

theorem sqrt_ratio_strictly_increasing_witness :
    ∃ v1 v2, get_sqrt_ratio_at_tick (-1) = some v1 ∧
      get_sqrt_ratio_at_tick 1 = some v2 ∧ v1 < v2 :=
  sqrt_ratio_strictly_increasing (-1) 1 (by norm_num) (by norm_num) (by norm_num)

/-- C3: the conversion fails exactly when `|tick| > 887272`, returns a value
for every tick in range, and in particular fails at `887273` and `-887273`. -/
theorem sqrt_ratio_domain_rejection :
    (∀ t : Int, get_sqrt_ratio_at_tick t = none ↔ 887272 < t.natAbs) ∧
    (∀ t : Int, -887272 ≤ t → t ≤ 887272 → ∃ v, get_sqrt_ratio_at_tick t = some v) ∧
    get_sqrt_ratio_at_tick 887273 = none ∧ get_sqrt_ratio_at_tick (-887273) = none := by
  refine ⟨?_, ?_, by decide, by decide⟩
  · intro t
    constructor
    · intro hnone
      by_contra hc
      push_neg at hc
      obtain ⟨v, hv⟩ := sqrt_ratio_isSome t (by simp only [MAX_TICK]; omega)
      rw [hv] at hnone
      exact Option.noConfusion hnone
    · intro hgt
      rw [get_sqrt_ratio_at_tick]
      simp [MAX_TICK, hgt]
  · intro t ha hb
    exact sqrt_ratio_isSome t (by simp only [MAX_TICK]; omega)

theorem sqrt_ratio_domain_rejection_witness :
    ∃ v, get_sqrt_ratio_at_tick 0 = some v :=
  sqrt_ratio_domain_rejection.2.1 0 (by norm_num) (by norm_num)

/-- C4: for every in-range tick the sqrt ratio exists and fits in 160 bits. -/
theorem sqrt_ratio_fits_160_bits (t : Int) (h1 : -887272 ≤ t) (h2 : t ≤ 887272) :
    ∃ v, get_sqrt_ratio_at_tick t = some v ∧ v < 2 ^ 160 := by
  obtain ⟨v, hv⟩ := sqrt_ratio_isSome t (by simp only [MAX_TICK]; omega)
  refine ⟨v, hv, ?_⟩
  have hend : get_sqrt_ratio_at_tick 887272
      = some 1461446703485210103287273052203988822378723970342 := by decide
  rcases eq_or_lt_of_le h2 with heq | hlt
  · rw [heq, hend] at hv
    have := Option.some.inj hv
    norm_num
    omega
  · have := sqrt_mono t 887272 h1 hlt (le_refl _) v _ hv hend
    norm_num
    omega

theorem sqrt_ratio_fits_160_bits_witness :
    ∃ v, get_sqrt_ratio_at_tick 0 = some v ∧ v < 2 ^ 160 :=
  sqrt_ratio_fits_160_bits 0 (by norm_num) (by norm_num)

/-- C10: `get_amount0_for_liquidity` fails with a division error exactly when
the smaller sqrt price is zero, is total when both are positive, and every
value `get_sqrt_ratio_at_tick` produces is positive, making the error branch
unreachable on converted ticks. -/
theorem amount0_division_by_zero_guard :
    (∀ a b L : Nat, get_amount0_for_liquidity a b L = none ↔ min a b = 0) ∧
    (∀ a b L : Nat, 0 < a → 0 < b → ∃ v, get_amount0_for_liquidity a b L = some v) ∧
    (∀ (t : Int) (v : Nat), get_sqrt_ratio_at_tick t = some v → 0 < v) := by
  have hmin : ∀ a b : Nat, (if a > b then b else a) = min a b := by
    intro a b
    by_cases h : a > b <;> simp [h] <;> omega
  refine ⟨?_, ?_, ?_⟩
  · intro a b L
    rw [get_amount0_for_liquidity, hmin a b]
    by_cases hz : min a b = 0 <;> simp [hz]
  · intro a b L ha hb
    rw [get_amount0_for_liquidity, hmin a b, if_neg (by omega)]
    exact ⟨_, rfl⟩
  · intro t v hv
    have h2 := sqrt_some_in_range t v hv
    by_cases hp : t > 0
    · rw [get_sqrt_pos t hp h2] at hv
      have e := Option.some.inj hv
      subst e
      rw [ceil32_eq, show (1 <<< 256 : Nat) = 2 ^ 256 by decide]
      have hq := inv_lower (ratioAbs t.natAbs) (ratioAbs_le_two_pow _) (ratioAbs_pos _)
      norm_num at hq ⊢
      omega
    · rw [get_sqrt_neg t hp h2] at hv
      have e := Option.some.inj hv
      subst e
      rw [ceil32_eq]
      have hq := ratioAbs_pos t.natAbs
      norm_num
      omega

theorem amount0_division_by_zero_guard_witness :
    ∃ v, get_amount0_for_liquidity 2 3 5 = some v :=
  amount0_division_by_zero_guard.2.1 2 3 5 (by norm_num) (by norm_num)

theorem ite_gt_min (a b : Nat) : (if a > b then b else a) = min a b := by
  by_cases h : a > b <;> simp [h] <;> omega

theorem ite_gt_max (a b : Nat) : (if a > b then a else b) = max a b := by
  by_cases h : a > b <;> simp [h] <;> omega

theorem mul_div_zero_mid (a d : Nat) : mul_div a 0 d = 0 := by
  show a * 0 / d = 0
  simp

theorem amount0_for_liquidity_self (s L : Nat) (hs : 0 < s) :
    get_amount0_for_liquidity s s L = some 0 := by
  rw [get_amount0_for_liquidity]
  simp [hs.ne', mul_div_zero_mid]

theorem amount1_for_liquidity_self (s L : Nat) : get_amount1_for_liquidity s s L = 0 := by
  rw [get_amount1_for_liquidity]
  simp [mul_div_zero_mid]

theorem amount0_some_of_pos (a b L : Nat) (ha : 0 < a) (hb : 0 < b) :
    ∃ v, get_amount0_for_liquidity a b L = some v := by
  rw [get_amount0_for_liquidity, ite_gt_min a b, if_neg (by omega : ¬ min a b = 0)]
  exact ⟨_, rfl⟩

theorem sqrt_val_pos (t : Int) (v : Nat) (hv : get_sqrt_ratio_at_tick t = some v) : 0 < v := by
  have h2 := sqrt_some_in_range t v hv
  by_cases hp : t > 0
  · rw [get_sqrt_pos t hp h2] at hv
    have e := Option.some.inj hv
    subst e
    rw [ceil32_eq, show (1 <<< 256 : Nat) = 2 ^ 256 by decide]
    have hq := inv_lower (ratioAbs t.natAbs) (ratioAbs_le_two_pow _) (ratioAbs_pos _)
    norm_num at hq ⊢
    omega
  · rw [get_sqrt_neg t hp h2] at hv
    have e := Option.some.inj hv
    subst e
    rw [ceil32_eq]
    have hq := ratioAbs_pos t.natAbs
    norm_num
    omega

/-- C1: `get_amounts_from_ticks` follows the three-regime decomposition with
the stated strict and non-strict boundaries, and on the concrete range
`tickLower = -100, tickUpper = 100, liquidity = 10^18` yields a pure-token0
pair below the range, a mixed pair inside it, and a pure-token1 pair above
it. -/
theorem amounts_from_ticks_trichotomy
    (tc tl tu : Int) (L : Nat)
    (hc1 : -887272 ≤ tc) (hc2 : tc ≤ 887272)
    (hl1 : -887272 ≤ tl) (hl2 : tl ≤ 887272)
    (hu1 : -887272 ≤ tu) (hu2 : tu ≤ 887272)
    (sx sa sb : Nat)
    (hsx : get_sqrt_ratio_at_tick tc = some sx)
    (hsa : get_sqrt_ratio_at_tick tl = some sa)
    (hsb : get_sqrt_ratio_at_tick tu = some sb) :
    ((sx ≤ min sa sb →
      ∃ a0, get_amount0_for_liquidity (min sa sb) (max sa sb) L = some a0 ∧
        get_amounts_from_ticks tc tl tu L = some (a0, 0)) ∧
     (min sa sb < sx → sx < max sa sb →
      ∃ a0, get_amount0_for_liquidity sx (max sa sb) L = some a0 ∧
        get_amounts_from_ticks tc tl tu L
          = some (a0, get_amount1_for_liquidity (min sa sb) sx L)) ∧
     (max sa sb ≤ sx →
      get_amounts_from_ticks tc tl tu L
        = some (0, get_amount1_for_liquidity (min sa sb) (max sa sb) L))) ∧
    ((∃ p, get_amounts_from_ticks (-200) (-100) 100 (10 ^ 18) = some p ∧ 0 < p.1 ∧ p.2 = 0) ∧
     (∃ p, get_amounts_from_ticks 0 (-100) 100 (10 ^ 18) = some p ∧ 0 < p.1 ∧ 0 < p.2) ∧
     (∃ p, get_amounts_from_ticks 200 (-100) 100 (10 ^ 18) = some p ∧ p.1 = 0 ∧ 0 < p.2)) := by
  have hsxpos := sqrt_val_pos tc sx hsx
  have hsapos := sqrt_val_pos tl sa hsa
  have hsbpos := sqrt_val_pos tu sb hsb
  have hunfold : get_amounts_from_ticks tc tl tu L
      = (if sx ≤ min sa sb then
          (get_amount0_for_liquidity (min sa sb) (max sa sb) L).map (fun a0 => (a0, 0))
        else if sx < max sa sb then
          (get_amount0_for_liquidity sx (max sa sb) L).map
            (fun a0 => (a0, get_amount1_for_liquidity (min sa sb) sx L))
        else some (0, get_amount1_for_liquidity (min sa sb) (max sa sb) L)) := by
    simp only [get_amounts_from_ticks, hsx, hsa, hsb]
    rw [ite_gt_min sa sb, ite_gt_max sa sb]
  refine ⟨⟨?_, ?_, ?_⟩, ?_, ?_, ?_⟩
  · intro hle
    obtain ⟨a0, ha0⟩ := amount0_some_of_pos (min sa sb) (max sa sb) L (by omega) (by omega)
    refine ⟨a0, ha0, ?_⟩
    rw [hunfold, if_pos hle, ha0]
    rfl
  · intro hgt hlt
    obtain ⟨a0, ha0⟩ := amount0_some_of_pos sx (max sa sb) L (by omega) (by omega)
    refine ⟨a0, ha0, ?_⟩
    rw [hunfold, if_neg (by omega), if_pos hlt, ha0]
    rfl
  · intro hge
    rw [hunfold]
    by_cases hle : sx ≤ min sa sb
    · have heq : min sa sb = max sa sb := by omega
      rw [if_pos hle, ← heq, amount0_for_liquidity_self _ L (by omega),
        amount1_for_liquidity_self]
      rfl
    · rw [if_neg hle, if_neg (by omega)]
  · exact ⟨(9999541693800299, 0), by decide, by decide, by decide⟩
  · exact ⟨(4987272070749096, 4987272070749096), by decide, by decide, by decide⟩
  · exact ⟨(0, 9999541693800299), by decide, by decide, by decide⟩

theorem amounts_from_ticks_trichotomy_witness :
    ∃ p, get_amounts_from_ticks (-200) (-100) 100 (10 ^ 18) = some p ∧ 0 < p.1 ∧ p.2 = 0 :=
  (amounts_from_ticks_trichotomy (-200) (-100) 100 (10 ^ 18)
    (by norm_num) (by norm_num) (by norm_num) (by norm_num) (by norm_num) (by norm_num)
    78439868342809377387252074393 78833030112140176575862854579
    79625275426524748796330556128
    (by decide) (by decide) (by decide)).2.1
